import Mathlib

/-!
# Active-task query handlers and fingerprint store

A shallow embedding of `controller/active_task.go` and `model/user_fingerprint.go`,
together with a model of the sliding-window ranking engine described in the
specification, and the properties proved about them.
-/

namespace NewApi

/-! ## controller/active_task.go -/

/-- Body of the JSON answer of `GetActiveTaskRankAPI`: the keys `rank` and
`window_seconds` of the `gin.H` map handed to `common.ApiSuccess`. -/
structure RankResponse (α : Type) where
  rank : List α
  window_seconds : Int

/-- The handler `GetActiveTaskRankAPI`.

* `ActiveWindowSeconds` is the constant `model.ActiveWindowSeconds`;
* `GetActiveTaskRank` is the engine method `manager.GetActiveTaskRank`;
* `window` is the value `strconv.ParseInt(c.Query("window"), 10, 64)` returned
  (its error is discarded by the handler), `limit` the value of
  `strconv.Atoi(c.Query("limit"))`. -/
def GetActiveTaskRankAPI {α : Type} (ActiveWindowSeconds : Int)
    (GetActiveTaskRank : Int → List α) (window : Int) (limit : Int) : RankResponse α :=
  let windowSeconds := window
  let windowSeconds := if windowSeconds ≤ 0 then ActiveWindowSeconds else windowSeconds
  let windowSeconds := if windowSeconds > 3600 then 3600 else windowSeconds
  let limit := if limit ≤ 0 then 50 else limit
  let limit := if limit > 200 then 200 else limit
  let rank := GetActiveTaskRank windowSeconds
  let rank := if (rank.length : Int) > limit then rank.take limit.toNat else rank
  { rank := rank, window_seconds := windowSeconds }

/-- Answer of `GetHighActiveTaskHistoryAPI`: either `common.ApiError` with a
message, or `common.ApiSuccess` with the keys `records` and `total`. -/
inductive HistoryResponse (ρ : Type) where
  | apiError (message : String)
  | apiSuccess (records : List ρ) (total : Nat)

/-- The handler `GetHighActiveTaskHistoryAPI`.  `GetHighActiveTaskHistory` is
the function `model.GetHighActiveTaskHistory(startTime, endTime, userId, limit)`;
the four integers are the values returned by `strconv.ParseInt` / `strconv.Atoi`
on the query parameters `start_time`, `end_time`, `user_id` and `limit`. -/
def GetHighActiveTaskHistoryAPI {ρ : Type}
    (GetHighActiveTaskHistory : Int → Int → Int → Int → Except String (List ρ))
    (startTime endTime userId limit : Int) : HistoryResponse ρ :=
  let limit := if limit ≤ 0 then 100 else limit
  let limit := if limit > 500 then 500 else limit
  match GetHighActiveTaskHistory startTime endTime userId limit with
  | .error err => .apiError ("获取历史记录失败: " ++ err)
  | .ok records => .apiSuccess records records.length

/-! ## model/user_fingerprint.go -/

/-- The row type `UserFingerprint` of table `user_fingerprints`.  Times are
instants on an integer time line. -/
structure UserFingerprint where
  Id : Int
  UserId : Int
  VisitorId : String
  UserAgent : String
  IP : String
  CreatedAt : Int
  UpdatedAt : Int
deriving DecidableEq, Repr

/-- The table `user_fingerprints` behind the handle `DB`: its rows, and the
counter from which `autoIncrement` draws the next primary key. -/
structure Table where
  rows : List UserFingerprint
  nextId : Int
deriving DecidableEq, Repr

/-- Which of the database calls made by `RecordFingerprint` fail.  `first` is a
failure of the lookup other than "record not found". -/
structure Faults where
  first : Bool
  save : Bool
  create : Bool
  count : Bool
  find : Bool
  delete : Bool
deriving DecidableEq, Repr

/-- Every database operation succeeds. -/
def noFaults : Faults :=
  { first := false, save := false, create := false, count := false, find := false,
    delete := false }

/-- Only the lookup `First` fails, with an error other than "record not found". -/
def lookupFault : Faults :=
  { first := true, save := false, create := false, count := false, find := false,
    delete := false }

/-- Only the call `Save` fails. -/
def saveFault : Faults :=
  { first := false, save := true, create := false, count := false, find := false,
    delete := false }

/-- Primary-key discipline of the table: ids are pairwise distinct and all
below the auto-increment counter. -/
def Table.WF (db : Table) : Prop :=
  (db.rows.map UserFingerprint.Id).Nodup ∧ ∀ r ∈ db.rows, r.Id < db.nextId

/-- The row with the least primary key, the row `First` picks from its matches. -/
def leastId : List UserFingerprint → Option UserFingerprint
  | [] => none
  | r :: rs =>
    match leastId rs with
    | none => some r
    | some m => if r.Id ≤ m.Id then some r else some m

/-- The query `DB.Where("user_id = ? AND visitor_id = ?", userId, visitorId).First(&existing)`:
the matching row of least primary key, `none` for "record not found". -/
def Table.First (db : Table) (userId : Int) (visitorId : String) : Option UserFingerprint :=
  leastId (db.rows.filter (fun r => r.UserId = userId ∧ r.VisitorId = visitorId))

/-- The call `DB.Save(&existing)`: writes every field of `existing` to the row
with its primary key, `updated_at` being set to the current time. -/
def Table.Save (db : Table) (existing : UserFingerprint) (now : Int) : Table :=
  { db with rows := db.rows.map (fun r =>
      if r.Id = existing.Id then { existing with UpdatedAt := now } else r) }

/-- The call `DB.Create(&fingerprint)`: the row gets the next primary key and
the current time as `created_at` and `updated_at`. -/
def Table.Create (db : Table) (fingerprint : UserFingerprint) (now : Int) : Table :=
  { rows := db.rows ++ [{ fingerprint with Id := db.nextId, CreatedAt := now, UpdatedAt := now }],
    nextId := db.nextId + 1 }

/-- The rows selected by `Where("user_id = ?", userId)`. -/
def Table.ofUser (db : Table) (userId : Int) : List UserFingerprint :=
  db.rows.filter (fun r => r.UserId = userId)

/-- The query `DB.Model(&UserFingerprint{}).Where("user_id = ?", userId).Count(&count)`. -/
def Table.Count (db : Table) (userId : Int) : Int :=
  ((db.ofUser userId).length : Int)

/-- Order of `Order("updated_at desc")`. -/
def updatedDesc (a b : UserFingerprint) : Prop := b.UpdatedAt ≤ a.UpdatedAt

instance : DecidableRel updatedDesc := fun a b => inferInstanceAs (Decidable (b.UpdatedAt ≤ a.UpdatedAt))

/-- The query `DB.Where("user_id = ?", userId).Order("updated_at desc").Offset(5).Find(&oldRecords)`.
Rows of equal `updated_at` are kept in table order. -/
def Table.FindOld (db : Table) (userId : Int) : List UserFingerprint :=
  ((db.ofUser userId).insertionSort updatedDesc).drop 5

/-- The call `DB.Delete(&UserFingerprint{}, ids)`: deletes the rows whose
primary key is in `ids`. -/
def Table.Delete (db : Table) (ids : List Int) : Table :=
  { db with rows := db.rows.filter (fun r => r.Id ∉ ids) }

/-- The function `RecordFingerprint`: the table after the call and the error
returned (`none` for `nil`).  `now` is the time the database layer stamps rows
with during the call; `f` says which database calls fail. -/
def RecordFingerprint (db : Table) (f : Faults) (now : Int)
    (userId : Int) (visitorId : String) (userAgent : String) (ip : String) :
    Table × Option String :=
  match (if f.first then none else db.First userId visitorId) with
  | some existing =>
    let existing := { existing with UserAgent := userAgent, IP := ip }
    if f.save then (db, some "save failed") else (db.Save existing now, none)
  | none =>
    let fingerprint : UserFingerprint :=
      { Id := 0, UserId := userId, VisitorId := visitorId, UserAgent := userAgent, IP := ip,
        CreatedAt := 0, UpdatedAt := 0 }
    if f.create then (db, some "create failed") else
    let db := db.Create fingerprint now
    let count : Int := if f.count then 0 else db.Count userId
    if count > 5 then
      let oldRecords := if f.find then [] else db.FindOld userId
      if oldRecords.length > 0 then
        let ids := oldRecords.map UserFingerprint.Id
        (if f.delete then db else db.Delete ids, none)
      else (db, none)
    else (db, none)

/-- The row a call `RecordFingerprint(userId, visitorId, userAgent, ip)` creates
on table `db` at time `now` when the user has no row with this visitor id. -/
def createdRow (db : Table) (now : Int) (userId : Int) (visitorId userAgent ip : String) :
    UserFingerprint :=
  { Id := db.nextId, UserId := userId, VisitorId := visitorId, UserAgent := userAgent, IP := ip,
    CreatedAt := now, UpdatedAt := now }

/-- The table right after the `DB.Create` of `RecordFingerprint`, before any pruning. -/
def inserted (db : Table) (now : Int) (userId : Int) (visitorId userAgent ip : String) : Table :=
  { rows := db.rows ++ [createdRow db now userId visitorId userAgent ip], nextId := db.nextId + 1 }

/-! ## The ranking engine (Slot Manager)

The engine behind `model.GetActiveTaskSlotManager()` is modelled from the
specification.  Clock readings and windows are rational numbers of seconds;
buckets are whole seconds. -/

/-- Modelled from the spec: the retention horizon `maxWindowSeconds` of an
Activity Track, whose source is missing. -/
def maxWindowSeconds : Int := 3600

/-- Modelled from the spec: a time bucket of an Activity Track (source missing),
the count of task starts whose timestamp fell in the epoch second `ts`. -/
structure Bucket where
  ts : Int
  count : Nat
deriving DecidableEq

/-- Modelled from the spec: the Activity Track of one user (source missing),
with the flag telling whether the previous threshold evaluation was above. -/
structure ActivityTrack where
  userId : Int
  buckets : List Bucket
  wasAbove : Bool
deriving DecidableEq

/-- Modelled from the spec: the increment step of `RecordEvent` (source missing):
adds one to the bucket of the given second, `none` when there is no such bucket. -/
def incrementBucket : List Bucket → Int → Option (List Bucket)
  | [], _ => none
  | b :: bs, second =>
    if b.ts = second then some ({ b with count := b.count + 1 } :: bs)
    else (incrementBucket bs second).map (fun bs1 => b :: bs1)

/-- Modelled from the spec: eviction of stale buckets (source missing): the
buckets older than `maxWindowSeconds` are dropped. -/
def evictStale (buckets : List Bucket) (now : ℚ) : List Bucket :=
  buckets.filter (fun b => now - (b.ts : ℚ) ≤ (maxWindowSeconds : ℚ))

/-- Modelled from the spec: `RecordEvent(now)` of the Activity Track (source
missing): increments the bucket for `floor(now)`; if there is none, evicts the
stale buckets and appends a bucket for that second. -/
def ActivityTrack.RecordEvent (t : ActivityTrack) (now : ℚ) : ActivityTrack :=
  match incrementBucket t.buckets (Int.floor now) with
  | some bs => { t with buckets := bs }
  | none => { t with buckets := evictStale t.buckets now ++ [{ ts := Int.floor now, count := 1 }] }

/-- Modelled from the spec: `CountInWindow(now, windowSeconds)` of the Activity
Track (source missing): the sum of the counts of the buckets whose timestamp
lies in `[now - windowSeconds, now]`. -/
def ActivityTrack.CountInWindow (t : ActivityTrack) (now windowSeconds : ℚ) : Nat :=
  ((t.buckets.filter (fun b =>
    now - windowSeconds ≤ (b.ts : ℚ) ∧ (b.ts : ℚ) ≤ now)).map Bucket.count).sum

/-- Modelled from the spec: a High-Activity History Record handed to the
Recorder (source missing). -/
structure HistoryRecord where
  userId : Int
  timestamp : ℚ
  countInWindow : Nat
  windowSeconds : ℚ
deriving DecidableEq

/-- Modelled from the spec: the state of the Slot Manager (source missing): the
tracks, the two configuration values, and the records handed to the Recorder so
far, oldest first. -/
structure SlotManager where
  tracks : List ActivityTrack
  activeWindowSeconds : ℚ
  highActivityThreshold : Nat
  appended : List HistoryRecord
deriving DecidableEq

/-- Modelled from the spec: lookup in the mapping from userId to track (source
missing). -/
def findTrack : List ActivityTrack → Int → Option ActivityTrack
  | [], _ => none
  | t :: ts, u => if t.userId = u then some t else findTrack ts u

/-- Modelled from the spec: store of a track under its userId in the mapping
(source missing). -/
def putTrack : List ActivityTrack → ActivityTrack → List ActivityTrack
  | [], t => [t]
  | x :: xs, t => if x.userId = t.userId then t :: xs else x :: putTrack xs t

/-- Modelled from the spec: the track of a user, a fresh empty one when the user
has none (source missing). -/
def SlotManager.track (m : SlotManager) (userId : Int) : ActivityTrack :=
  (findTrack m.tracks userId).getD { userId := userId, buckets := [], wasAbove := false }

/-- Modelled from the spec: `RecordTaskStart(userId)` of the Slot Manager at
clock reading `now` (source missing): locates or creates the track, records the
event, evaluates the count in `activeWindowSeconds` against the threshold and
calls the Recorder on the transition from at-or-below to above. -/
def SlotManager.RecordTaskStart (m : SlotManager) (now : ℚ) (userId : Int) : SlotManager :=
  let t := m.track userId
  let t1 := t.RecordEvent now
  let c := t1.CountInWindow now m.activeWindowSeconds
  let above : Bool := decide (c > m.highActivityThreshold)
  let fire : Bool := above && !t.wasAbove
  { m with
    tracks := putTrack m.tracks { t1 with wasAbove := above }
    appended :=
      if fire then
        m.appended ++ [{ userId := userId, timestamp := now, countInWindow := c,
                         windowSeconds := m.activeWindowSeconds }]
      else m.appended }

/-- Modelled from the spec: a Rank Entry (source missing). -/
structure RankEntry where
  userId : Int
  count : Nat
  windowSeconds : ℚ
deriving DecidableEq

/-- Modelled from the spec: the ranking order (source missing): count
descending, ties by userId ascending. -/
def rankBefore (a b : RankEntry) : Prop :=
  a.count > b.count ∨ (a.count = b.count ∧ a.userId ≤ b.userId)

instance : DecidableRel rankBefore := fun a b =>
  inferInstanceAs (Decidable (a.count > b.count ∨ (a.count = b.count ∧ a.userId ≤ b.userId)))

/-- Modelled from the spec: `GetActiveTaskRank(windowSeconds)` of the Slot
Manager at clock reading `now` (source missing): the count of every track in the
window, zero counts filtered out, sorted by count descending and userId
ascending. -/
def SlotManager.GetActiveTaskRank (m : SlotManager) (now : ℚ) (windowSeconds : ℚ) :
    List RankEntry :=
  ((m.tracks.map (fun t =>
      ({ userId := t.userId, count := t.CountInWindow now windowSeconds,
         windowSeconds := windowSeconds } : RankEntry))).filter
    (fun e => e.count ≠ 0)).insertionSort rankBefore

/-- Modelled from the spec: what happens to the engine and its clock (source
missing): the monotonic clock advances by some seconds, or a user starts a task. -/
inductive Event where
  | advance (seconds : NNRat)
  | taskStart (userId : Int)

/-- Modelled from the spec: the engine together with the reading of its
monotonic clock (source missing). -/
structure Engine where
  now : ℚ
  manager : SlotManager

/-- One event applied to the system. -/
def Engine.step (s : Engine) : Event → Engine
  | .advance d => { s with now := s.now + (d : ℚ) }
  | .taskStart u => { s with manager := s.manager.RecordTaskStart s.now u }

/-- A sequence of events applied to the system, first event first. -/
def Engine.run (s : Engine) (events : List Event) : Engine :=
  events.foldl Engine.step s

/-- The timestamps of the `RecordTaskStart(userId)` calls made while `events`
run from clock reading `now`. -/
def callTimes (userId : Int) : ℚ → List Event → List ℚ
  | _, [] => []
  | now, .advance d :: es => callTimes userId (now + (d : ℚ)) es
  | now, .taskStart u :: es =>
    if u = userId then now :: callTimes userId now es else callTimes userId now es

/-- The outcomes of the threshold evaluations of `userId` made while `events`
run from system `s`, in order: whether, right after a task start of the user, the
count of the user in `activeWindowSeconds` is strictly above the threshold. -/
def evaluations (userId : Int) : Engine → List Event → List Bool
  | _, [] => []
  | s, .advance d :: es => evaluations userId (s.step (.advance d)) es
  | s, .taskStart u :: es =>
    if u = userId then
      decide (((s.step (.taskStart u)).manager.track userId).CountInWindow s.now
          s.manager.activeWindowSeconds > s.manager.highActivityThreshold)
        :: evaluations userId (s.step (.taskStart u)) es
    else evaluations userId (s.step (.taskStart u)) es

/-- Number of upward crossings in a sequence of evaluations that follows an
evaluation of outcome `prev`: the transitions from at-or-below to above. -/
def crossings : Bool → List Bool → Nat
  | _, [] => 0
  | prev, b :: bs => (if b && !prev then 1 else 0) + crossings b bs

/-- The records of `userId` among those handed to the Recorder. -/
def SlotManager.appendedFor (m : SlotManager) (userId : Int) : List HistoryRecord :=
  m.appended.filter (fun r => r.userId = userId)

/-- A fresh engine at clock reading `now`. -/
def Engine.fresh (now : ℚ) (activeWindowSeconds : ℚ) (highActivityThreshold : Nat) : Engine :=
  { now := now,
    manager := { tracks := [], activeWindowSeconds := activeWindowSeconds,
                 highActivityThreshold := highActivityThreshold, appended := [] } }

/-! ## Auxiliary definitions for the statements -/

/-- Sum of the counts of the buckets with timestamp in `[lo, hi]`. -/
def windowSum (bs : List Bucket) (lo hi : ℚ) : Nat :=
  ((bs.filter (fun b => lo ≤ (b.ts : ℚ) ∧ (b.ts : ℚ) ≤ hi)).map Bucket.count).sum

/-- Number of the timestamps in `calls` whose whole second lies in `[lo, hi]`. -/
def callsIn (calls : List ℚ) (lo hi : ℚ) : Nat :=
  (calls.filter (fun c => lo ≤ ((Int.floor c : Int) : ℚ) ∧ ((Int.floor c : Int) : ℚ) ≤ hi)).length

/-- A table with five rows of user 7 and one row of user 8. -/
def sampleTable : Table :=
  { rows := [⟨1, 7, "a", "ua", "ip", 10, 10⟩, ⟨2, 7, "b", "ua", "ip", 11, 11⟩,
             ⟨3, 8, "a", "ua", "ip", 12, 12⟩, ⟨4, 7, "c", "ua", "ip", 13, 13⟩,
             ⟨5, 7, "d", "ua", "ip", 14, 14⟩, ⟨6, 7, "e", "ua", "ip", 15, 9⟩],
    nextId := 7 }

/-- An engine on which users 1, 2 and 3 started 5, 5 and 3 tasks within 8 seconds. -/
def rankSample : Engine :=
  (Engine.fresh 1000 30 10).run
    [.taskStart 3, .taskStart 2, .advance 1, .taskStart 1, .taskStart 1, .taskStart 3, .advance 2,
     .taskStart 2, .taskStart 2, .taskStart 1, .advance 5, .taskStart 2, .taskStart 1,
     .taskStart 3, .taskStart 2, .taskStart 1]

/-- Ten task starts of user 42 within three seconds. -/
def tenStarts : List Event :=
  [.taskStart 42, .taskStart 42, .taskStart 42, .advance 1, .taskStart 42, .taskStart 42,
   .taskStart 42, .taskStart 42, .advance 2, .taskStart 42, .taskStart 42, .taskStart 42]

/-- The eleventh task start of user 42, and one more two seconds later. -/
def twoMore : List Event :=
  [.taskStart 42, .advance 2, .taskStart 42]

/-- Task starts of users 1 and 2 spread over 50 seconds. -/
def spreadStarts : List Event :=
  [.taskStart 1, .advance 10, .taskStart 1, .taskStart 2, .advance 25, .taskStart 1, .advance 15,
   .taskStart 1, .taskStart 1]

/-- One task start of user 1 at clock reading 70.7, the clock then moving on to 100.5. -/
def subSecondStart : List Event :=
  [.advance (707 / 10), .taskStart 1, .advance (298 / 10)]

/-- Number of upward crossings of the windowed count of `userId` while `events`
run from system `s`: the task starts of the user before which the count in
`activeWindowSeconds` is at or below the threshold and after which it is
strictly above. -/
def countCrossings (userId : Int) : Engine → List Event → Nat
  | _, [] => 0
  | s, .advance d :: es => countCrossings userId (s.step (.advance d)) es
  | s, .taskStart u :: es =>
    (if u = userId ∧
        (s.manager.track userId).CountInWindow s.now s.manager.activeWindowSeconds
          ≤ s.manager.highActivityThreshold ∧
        ((s.step (.taskStart u)).manager.track userId).CountInWindow s.now
          s.manager.activeWindowSeconds > s.manager.highActivityThreshold
      then 1 else 0) + countCrossings userId (s.step (.taskStart u)) es

/-- Eleven task starts of user 42 at once, ten more 25 seconds later. -/
def twoBursts : List Event :=
  List.replicate 11 (.taskStart 42) ++ [.advance 25] ++ List.replicate 10 (.taskStart 42)

/-- One task start of user 42 six seconds after the second burst, when the
first burst has left the window of 30 seconds. -/
def afterDecay : List Event :=
  [.advance 6, .taskStart 42]

/-! ## Order instances -/

instance : IsTotal UserFingerprint updatedDesc := ⟨fun a b => by
  unfold updatedDesc; omega⟩

instance : IsTrans UserFingerprint updatedDesc := ⟨fun a b c hab hbc => by
  unfold updatedDesc at *; omega⟩

instance : IsTotal RankEntry rankBefore := ⟨fun a b => by
  unfold rankBefore; omega⟩

instance : IsTrans RankEntry rankBefore := ⟨fun a b c hab hbc => by
  unfold rankBefore at *; omega⟩

/-! ## Properties of the handlers -/

/-- C1: the window handed to the engine and echoed as `window_seconds` is
`min 3600 w1`, where `w1` is `ActiveWindowSeconds` for a parsed window `w ≤ 0`
and `w` otherwise; when `0 < ActiveWindowSeconds ≤ 3600` it lies in `(0, 3600]`
and is `w` itself for every `w` in `(0, 3600]`. -/
theorem GetActiveTaskRankAPI_window {α : Type} (A : Int) (engine : Int → List α) (w n : Int) :
    (GetActiveTaskRankAPI A engine w n).window_seconds = min 3600 (if w ≤ 0 then A else w) ∧
    (GetActiveTaskRankAPI A engine w n).rank =
      (GetActiveTaskRankAPI A (fun _ => engine (min 3600 (if w ≤ 0 then A else w))) w n).rank ∧
    (0 < A → A ≤ 3600 →
      0 < (GetActiveTaskRankAPI A engine w n).window_seconds ∧
      (GetActiveTaskRankAPI A engine w n).window_seconds ≤ 3600 ∧
      (0 < w → w ≤ 3600 → (GetActiveTaskRankAPI A engine w n).window_seconds = w)) := by
  have key : (if (if w ≤ 0 then A else w) > 3600 then 3600 else (if w ≤ 0 then A else w))
      = min 3600 (if w ≤ 0 then A else w) := by
    split_ifs <;> omega
  refine ⟨?_, ?_, ?_⟩
  · simp only [GetActiveTaskRankAPI]; exact key
  · simp only [GetActiveTaskRankAPI]; rw [key]
  · intro hA hA'
    simp only [GetActiveTaskRankAPI]; rw [key]
    refine ⟨?_, ?_, ?_⟩ <;> split_ifs <;> omega

/-- Witness of C1 at `ActiveWindowSeconds = 30`, absent window, absent limit. -/
theorem GetActiveTaskRankAPI_window_witness :
    (0 : Int) < 30 ∧ (30 : Int) ≤ 3600 ∧
    (GetActiveTaskRankAPI 30 (fun w => [w]) 0 0).window_seconds = 30 ∧
    (GetActiveTaskRankAPI 30 (fun w => [w]) 0 0).rank = [30] ∧
    (GetActiveTaskRankAPI 30 (fun w => [w]) 4000 0).rank = [3600] ∧
    0 < (GetActiveTaskRankAPI 30 (fun w => [w]) 0 0).window_seconds :=
  ⟨by decide, by decide, by decide, by decide, by decide,
   ((GetActiveTaskRankAPI_window 30 (fun w => [w]) 0 0).2.2 (by decide) (by decide)).1⟩

/-- C2: the `rank` list of the answer is the first `min (len r) L` entries of
the list `r` the engine returned, in order, where `L` is 50 for a parsed limit
`n ≤ 0`, 200 for `n > 200` and `n` otherwise; it never has more than 200 entries. -/
theorem GetActiveTaskRankAPI_rank {α : Type} (A : Int) (engine : Int → List α) (w n : Int) :
    (GetActiveTaskRankAPI A engine w n).rank =
      (engine (GetActiveTaskRankAPI A engine w n).window_seconds).take
        (min (engine (GetActiveTaskRankAPI A engine w n).window_seconds).length
          (if n ≤ 0 then 50 else if n > 200 then 200 else n).toNat) ∧
    (GetActiveTaskRankAPI A engine w n).rank.length ≤ 200 := by
  simp only [GetActiveTaskRankAPI]
  generalize engine _ = r
  have hL : (if (if n ≤ 0 then (50 : Int) else n) > 200 then 200 else (if n ≤ 0 then 50 else n))
      = (if n ≤ 0 then 50 else if n > 200 then 200 else n) := by
    split_ifs <;> omega
  rw [hL]
  generalize hLd : (if n ≤ 0 then (50 : Int) else if n > 200 then 200 else n) = L
  have hL1 : 0 < L ∧ L ≤ 200 := by
    rw [← hLd]; split_ifs <;> omega
  have hto : (L.toNat : Int) = L := Int.toNat_of_nonneg (by omega)
  constructor
  · split_ifs with h
    · have hm : min r.length L.toNat = L.toNat := by omega
      rw [hm]
    · have hm : min r.length L.toNat = r.length := by omega
      rw [hm, List.take_length]
  · split_ifs with h
    · rw [List.length_take]; omega
    · omega

/-- C3: the limit handed to `GetHighActiveTaskHistory` is 100 for a parsed limit
`n ≤ 0`, 500 for `n > 500` and `n` otherwise, hence in `[1, 500]`; `start_time`,
`end_time` and `user_id` (0 when absent) are handed over unchanged. -/
theorem GetHighActiveTaskHistoryAPI_args {ρ : Type}
    (store : Int → Int → Int → Int → Except String (List ρ)) (st et uid n : Int) :
    GetHighActiveTaskHistoryAPI store st et uid n =
      (match store st et uid (if n ≤ 0 then 100 else if n > 500 then 500 else n) with
        | .error err => .apiError ("获取历史记录失败: " ++ err)
        | .ok records => .apiSuccess records records.length) ∧
    1 ≤ (if n ≤ 0 then (100 : Int) else if n > 500 then 500 else n) ∧
    (if n ≤ 0 then (100 : Int) else if n > 500 then 500 else n) ≤ 500 := by
  have hL : (if (if n ≤ 0 then (100 : Int) else n) > 500 then 500 else (if n ≤ 0 then 100 else n))
      = (if n ≤ 0 then 100 else if n > 500 then 500 else n) := by
    split_ifs <;> omega
  refine ⟨?_, ?_, ?_⟩
  · simp only [GetHighActiveTaskHistoryAPI]; rw [hL]
  · split_ifs <;> omega
  · split_ifs <;> omega

/-! ## Properties of the fingerprint store -/

/-! ### Lemmas on lists -/

theorem filter_not_mem_drop {α β : Type} [DecidableEq β] (f : α → β) (l : List α) (n : Nat)
    (hnd : (l.map f).Nodup) :
    l.filter (fun r => f r ∉ (l.drop n).map f) = l.take n := by
  have hsplit : l.take n ++ l.drop n = l := List.take_append_drop n l
  have hnd2 : ((l.take n).map f ++ (l.drop n).map f).Nodup := by
    rw [← List.map_append, hsplit]; exact hnd
  have hdis := (List.nodup_append.mp hnd2).2.2
  have hfilter : ∀ p : α → Bool, l.filter p = (l.take n).filter p ++ (l.drop n).filter p :=
    fun p => by rw [← List.filter_append, hsplit]
  have h1 : (l.take n).filter (fun r => f r ∉ (l.drop n).map f) = l.take n := by
    rw [List.filter_eq_self]
    intro a ha
    have : f a ∉ (l.drop n).map f := fun hc => hdis (List.mem_map_of_mem f ha) hc
    simpa using this
  have h2 : (l.drop n).filter (fun r => f r ∉ (l.drop n).map f) = [] := by
    rw [List.filter_eq_nil_iff]
    intro a ha
    have : f a ∈ (l.drop n).map f := List.mem_map_of_mem f ha
    simpa using this
  rw [hfilter, h1, h2, List.append_nil]

theorem leastId_mem : ∀ (l : List UserFingerprint) (m : UserFingerprint),
    leastId l = some m → m ∈ l
  | [], m, h => by simp [leastId] at h
  | r :: rs, m, h => by
    unfold leastId at h
    cases hrs : leastId rs with
    | none =>
      rw [hrs] at h
      simp at h
      simp [h]
    | some m1 =>
      rw [hrs] at h
      simp only at h
      split_ifs at h
      · simp at h; simp [h]
      · simp at h
        subst h
        exact List.mem_cons_of_mem _ (leastId_mem rs m1 hrs)

theorem leastId_eq_none : ∀ (l : List UserFingerprint), leastId l = none → l = []
  | [], _ => rfl
  | r :: rs, h => by
    unfold leastId at h
    cases hrs : leastId rs with
    | none => rw [hrs] at h; simp at h
    | some m1 =>
      rw [hrs] at h
      simp only at h
      split_ifs at h

theorem First_some (db : Table) (u : Int) (v : String) (e : UserFingerprint)
    (h : db.First u v = some e) : e ∈ db.rows ∧ e.UserId = u ∧ e.VisitorId = v := by
  have hm := leastId_mem _ _ h
  simpa [List.mem_filter] using hm

theorem First_none (db : Table) (u : Int) (v : String) :
    db.First u v = none ↔ ∀ r ∈ db.rows, ¬ (r.UserId = u ∧ r.VisitorId = v) := by
  constructor
  · intro h r hr hc
    have hnil := leastId_eq_none _ h
    have : r ∈ db.rows.filter (fun r => r.UserId = u ∧ r.VisitorId = v) := by
      simp [List.mem_filter, hr, hc]
    rw [hnil] at this
    simp at this
  · intro h
    have : db.rows.filter (fun r => r.UserId = u ∧ r.VisitorId = v) = [] := by
      rw [List.filter_eq_nil_iff]
      intro a ha
      simpa using h a ha
    unfold Table.First
    rw [this]
    rfl

theorem WF_inj (db : Table) (hwf : db.WF) (a b : UserFingerprint) (ha : a ∈ db.rows)
    (hb : b ∈ db.rows) (h : a.Id = b.Id) : a = b :=
  List.inj_on_of_nodup_map hwf.1 ha hb h

theorem Create_WF (db : Table) (hwf : db.WF) (fp : UserFingerprint) (now : Int) :
    (db.Create fp now).WF := by
  obtain ⟨hnd, hlt⟩ := hwf
  constructor
  · simp only [Table.Create, List.map_append, List.map_cons, List.map_nil]
    rw [List.nodup_append]
    refine ⟨hnd, List.nodup_singleton _, ?_⟩
    intro x hx hx2
    simp at hx2
    obtain ⟨r, hr, rfl⟩ := List.mem_map.mp hx
    have := hlt r hr
    omega
  · intro r hr
    simp only [Table.Create, List.mem_append, List.mem_singleton] at hr ⊢
    rcases hr with hr | hr
    · have := hlt r hr; omega
    · subst hr; simp

theorem Save_rows (db : Table) (hwf : db.WF) (e e1 : UserFingerprint) (he : e ∈ db.rows)
    (hid : e1.Id = e.Id) (now : Int) :
    (db.Save e1 now).rows =
      db.rows.map (fun r => if r = e then { e1 with UpdatedAt := now } else r) := by
  simp only [Table.Save]
  apply List.map_congr_left
  intro r hr
  by_cases h : r = e
  · subst h; simp [hid]
  · have : r.Id ≠ e1.Id := fun hc => h (WF_inj db hwf r e hr he (hc.trans hid))
    simp [h, this]

theorem ofUser_nodup (db : Table) (hwf : db.WF) (u : Int) :
    (((db.ofUser u).insertionSort updatedDesc).map UserFingerprint.Id).Nodup := by
  have hp : List.Perm (((db.ofUser u).insertionSort updatedDesc).map UserFingerprint.Id)
      ((db.ofUser u).map UserFingerprint.Id) := (List.perm_insertionSort _ _).map _
  rw [hp.nodup_iff]
  exact hwf.1.sublist ((List.filter_sublist db.rows).map UserFingerprint.Id)

theorem FindOld_mem (db : Table) (u : Int) (o : UserFingerprint) (ho : o ∈ db.FindOld u) :
    o ∈ db.rows ∧ o.UserId = u := by
  have h1 : o ∈ (db.ofUser u).insertionSort updatedDesc := List.mem_of_mem_drop ho
  rw [List.mem_insertionSort] at h1
  simpa [Table.ofUser, List.mem_filter] using h1

theorem FindOld_of_id (db : Table) (hwf : db.WF) (u : Int) (r : UserFingerprint)
    (hr : r ∈ db.rows) (hid : r.Id ∈ (db.FindOld u).map UserFingerprint.Id) :
    r ∈ db.FindOld u := by
  obtain ⟨o, ho, hoid⟩ := List.mem_map.mp hid
  have := WF_inj db hwf o r (FindOld_mem db u o ho).1 hr hoid
  rwa [← this]

theorem Delete_ofUser_perm (db : Table) (hwf : db.WF) (u : Int) :
    List.Perm ((db.Delete ((db.FindOld u).map UserFingerprint.Id)).ofUser u)
      (((db.ofUser u).insertionSort updatedDesc).take 5) := by
  have h1 : (db.Delete ((db.FindOld u).map UserFingerprint.Id)).ofUser u =
      (db.ofUser u).filter (fun r => r.Id ∉ (db.FindOld u).map UserFingerprint.Id) := by
    simp only [Table.Delete, Table.ofUser, List.filter_filter]
    apply List.filter_congr
    intro x _
    simp [Bool.and_comm]
  rw [h1, ← filter_not_mem_drop UserFingerprint.Id _ 5 (ofUser_nodup db hwf u)]
  exact (List.perm_insertionSort _ _).symm.filter _

theorem sorted_take_drop (db : Table) (u : Int) (a b : UserFingerprint)
    (ha : a ∈ ((db.ofUser u).insertionSort updatedDesc).take 5) (hb : b ∈ db.FindOld u) :
    b.UpdatedAt ≤ a.UpdatedAt := by
  have hs : List.Sorted updatedDesc ((db.ofUser u).insertionSort updatedDesc) :=
    List.sorted_insertionSort _ _
  rw [← List.take_append_drop 5 ((db.ofUser u).insertionSort updatedDesc)] at hs
  exact (List.pairwise_append.mp hs).2.2 a ha b hb

theorem RecordFingerprint_update_path (db : Table) (hwf : db.WF) (now u : Int) (v ua ip : String)
    (e : UserFingerprint) (he : db.First u v = some e) :
    RecordFingerprint db noFaults now u v ua ip =
      ({ db with rows := db.rows.map (fun r =>
          if r = e then { e with UserAgent := ua, IP := ip, UpdatedAt := now } else r) }, none) := by
  have hmem := (First_some db u v e he).1
  have hrows := Save_rows db hwf e { e with UserAgent := ua, IP := ip } hmem rfl now
  simp only [RecordFingerprint, noFaults, he, Bool.false_eq_true, if_false]
  simp only [Table.Save] at hrows ⊢
  rw [hrows]

theorem RecordFingerprint_create_path (db : Table) (f : Faults) (now u : Int) (v ua ip : String)
    (hno : db.First u v = none) (hc : f.create = false) :
    (RecordFingerprint db f now u v ua ip).2 = none ∧
    ((RecordFingerprint db f now u v ua ip).1 = inserted db now u v ua ip ∨
      (RecordFingerprint db f now u v ua ip).1 =
        (inserted db now u v ua ip).Delete
          (((inserted db now u v ua ip).FindOld u).map UserFingerprint.Id)) := by
  have h0 : (if f.first = true then none else db.First u v) = none := by
    split_ifs <;> simp [hno]
  have hins : db.Create ⟨0, u, v, ua, ip, 0, 0⟩ now = inserted db now u v ua ip := rfl
  simp only [RecordFingerprint, hc, Bool.false_eq_true, if_false]
  rw [h0]
  simp only [hins]
  split_ifs <;> first | (simp; done) | (exfalso; simp_all)

theorem RecordFingerprint_create_noFaults (db : Table) (now u : Int) (v ua ip : String)
    (hno : db.First u v = none) :
    RecordFingerprint db noFaults now u v ua ip =
      (if (inserted db now u v ua ip).Count u > 5 then
        (inserted db now u v ua ip).Delete
          (((inserted db now u v ua ip).FindOld u).map UserFingerprint.Id)
       else inserted db now u v ua ip, none) := by
  have hins : db.Create ⟨0, u, v, ua, ip, 0, 0⟩ now = inserted db now u v ua ip := rfl
  simp only [RecordFingerprint, noFaults, Bool.false_eq_true, if_false, hno, hins]
  by_cases hc : (inserted db now u v ua ip).Count u > 5
  · have hlen : ((inserted db now u v ua ip).FindOld u).length > 0 := by
      simp only [Table.FindOld, List.length_drop, List.length_insertionSort]
      simp only [Table.Count] at hc
      omega
    simp [hc, hlen]
  · simp [hc]

theorem inserted_WF (db : Table) (hwf : db.WF) (now u : Int) (v ua ip : String) :
    (inserted db now u v ua ip).WF :=
  Create_WF db hwf ⟨0, u, v, ua, ip, 0, 0⟩ now

theorem inserted_ofUser (db : Table) (now u : Int) (v ua ip : String) :
    (inserted db now u v ua ip).ofUser u = db.ofUser u ++ [createdRow db now u v ua ip] := by
  simp [inserted, Table.ofUser, List.filter_append, createdRow]

theorem sampleTable_WF : sampleTable.WF := by
  unfold Table.WF sampleTable
  decide

theorem RecordFingerprint_update_path_faults (db : Table) (hwf : db.WF) (f : Faults)
    (now u : Int) (v ua ip : String) (e : UserFingerprint) (he : db.First u v = some e)
    (hfirst : f.first = false) :
    RecordFingerprint db f now u v ua ip =
      if f.save = true then (db, some "save failed")
      else ({ db with rows := db.rows.map (fun r =>
          if r = e then { e with UserAgent := ua, IP := ip, UpdatedAt := now } else r) }, none) := by
  have hmem := (First_some db u v e he).1
  have hrows := Save_rows db hwf e { e with UserAgent := ua, IP := ip } hmem rfl now
  simp only [RecordFingerprint, hfirst, he, Bool.false_eq_true, if_false]
  simp only [Table.Save] at hrows ⊢
  rw [hrows]

/-- C5 as stated fails on a table where user 7 has a row with visitor id "b":
when the lookup fails with an error other than "record not found", the call
creates a second row for (7, "b") with id 7, prunes the row with id 6, leaves
the existing row as it was and returns nil; when `Save` fails, the call returns
the error and the existing row is not updated. -/
theorem RecordFingerprint_existing_counterexample :
    (∃ r ∈ sampleTable.rows, r.UserId = 7 ∧ r.VisitorId = "b") ∧
    sampleTable.rows.map UserFingerprint.Id = [1, 2, 3, 4, 5, 6] ∧
    (RecordFingerprint sampleTable lookupFault 20 7 "b" "ua2" "ip2").2 = none ∧
    (RecordFingerprint sampleTable lookupFault 20 7 "b" "ua2" "ip2").1.rows.map
      UserFingerprint.Id = [1, 2, 3, 4, 5, 7] ∧
    (⟨2, 7, "b", "ua", "ip", 11, 11⟩ : UserFingerprint) ∈
      (RecordFingerprint sampleTable lookupFault 20 7 "b" "ua2" "ip2").1.rows ∧
    (⟨7, 7, "b", "ua2", "ip2", 20, 20⟩ : UserFingerprint) ∈
      (RecordFingerprint sampleTable lookupFault 20 7 "b" "ua2" "ip2").1.rows ∧
    RecordFingerprint sampleTable saveFault 20 7 "b" "ua2" "ip2" =
      (sampleTable, some "save failed") := by
  refine ⟨?_, ?_, ?_, ?_, ?_, ?_, ?_⟩ <;> decide

/-- C5 amended: when user `u` already has a row with visitor id `v` and the
lookup does not fail, a call whose `Save` succeeds rewrites the user agent, IP
and update time of one such row in place and returns nil, and a call whose
`Save` fails returns the error and leaves the table as it was; either way no row
is created or deleted, the ids are unchanged and every other row is untouched. -/
theorem RecordFingerprint_existing_in_place (db : Table) (hwf : db.WF) (f : Faults)
    (now u : Int) (v ua ip : String) (hfirst : f.first = false)
    (hex : ∃ r ∈ db.rows, r.UserId = u ∧ r.VisitorId = v) :
    ∃ e ∈ db.rows, e.UserId = u ∧ e.VisitorId = v ∧
      (f.save = false →
        RecordFingerprint db f now u v ua ip =
          ({ db with rows := db.rows.map (fun r =>
              if r = e then { e with UserAgent := ua, IP := ip, UpdatedAt := now } else r) },
           none)) ∧
      (f.save = true →
        (RecordFingerprint db f now u v ua ip).1 = db ∧
        (RecordFingerprint db f now u v ua ip).2 ≠ none) ∧
      (RecordFingerprint db f now u v ua ip).1.rows.map UserFingerprint.Id =
        db.rows.map UserFingerprint.Id ∧
      (RecordFingerprint db f now u v ua ip).1.nextId = db.nextId ∧
      (∀ (i : Nat) (r : UserFingerprint), db.rows[i]? = some r → r ≠ e →
        (RecordFingerprint db f now u v ua ip).1.rows[i]? = some r) := by
  cases hF : db.First u v with
  | none =>
    obtain ⟨r, hr, hc⟩ := hex
    exact absurd hc ((First_none db u v).mp hF r hr)
  | some e =>
    obtain ⟨hmem, hu, hv⟩ := First_some db u v e hF
    have hpath := RecordFingerprint_update_path_faults db hwf f now u v ua ip e hF hfirst
    refine ⟨e, hmem, hu, hv, ?_, ?_, ?_, ?_, ?_⟩
    · intro hs
      rw [hpath]; simp [hs]
    · intro hs
      rw [hpath]; simp [hs]
    · rw [hpath]
      split_ifs
      · rfl
      · simp only [List.map_map]
        apply List.map_congr_left
        intro r _
        by_cases h : r = e
        · subst h; simp
        · simp [h]
    · rw [hpath]
      split_ifs <;> rfl
    · intro i r hi hne
      rw [hpath]
      split_ifs
      · exact hi
      · simp only [List.getElem?_map, hi, Option.map_some', if_neg hne]

/-- Witness of C5 amended: user 7 records visitor id "b" again on the sample
table, every database call succeeding; the row with id 2 is rewritten in place. -/
theorem RecordFingerprint_existing_in_place_witness :
    sampleTable.WF ∧ noFaults.first = false ∧
    (∃ r ∈ sampleTable.rows, r.UserId = 7 ∧ r.VisitorId = "b") ∧
    (RecordFingerprint sampleTable noFaults 20 7 "b" "ua2" "ip2").1.rows.map UserFingerprint.Id =
      sampleTable.rows.map UserFingerprint.Id ∧
    (⟨2, 7, "b", "ua2", "ip2", 11, 20⟩ : UserFingerprint) ∈
      (RecordFingerprint sampleTable noFaults 20 7 "b" "ua2" "ip2").1.rows :=
  ⟨sampleTable_WF, rfl, by unfold sampleTable; decide,
   (RecordFingerprint_existing_in_place sampleTable sampleTable_WF noFaults 20 7 "b" "ua2" "ip2"
     rfl (by unfold sampleTable; decide)).choose_spec.2.2.2.2.2.1,
   by decide⟩

/-- C4: with every database operation succeeding, a user with at most 5 rows
has at most 5 rows after the call; and when the call prunes (the user had 5 rows,
none with this visitor id), the rows removed from the table with the new row are
rows of the user, 5 rows of the user stay, and no removed row was updated later
than a row of the user that stays. -/
theorem RecordFingerprint_keeps_five (db : Table) (hwf : db.WF) (now u : Int)
    (v ua ip : String) (h5 : db.Count u ≤ 5) :
    (RecordFingerprint db noFaults now u v ua ip).1.Count u ≤ 5 ∧
    ((∀ r ∈ db.rows, ¬ (r.UserId = u ∧ r.VisitorId = v)) → db.Count u = 5 →
      (RecordFingerprint db noFaults now u v ua ip).1.rows.Sublist
        (db.rows ++ [createdRow db now u v ua ip]) ∧
      (RecordFingerprint db noFaults now u v ua ip).1.Count u = 5 ∧
      (RecordFingerprint db noFaults now u v ua ip).1.rows.length = db.rows.length ∧
      ∀ d ∈ db.rows ++ [createdRow db now u v ua ip],
        d ∉ (RecordFingerprint db noFaults now u v ua ip).1.rows →
          d.UserId = u ∧
          ∀ k ∈ (RecordFingerprint db noFaults now u v ua ip).1.rows, k.UserId = u →
            d.UpdatedAt ≤ k.UpdatedAt) := by
  have hwfi := inserted_WF db hwf now u v ua ip
  have hcnt : (inserted db now u v ua ip).Count u = db.Count u + 1 := by
    simp [Table.Count, inserted_ofUser]
  have hperm := Delete_ofUser_perm (inserted db now u v ua ip) hwfi u
  have hlenS : ((inserted db now u v ua ip).ofUser u).length = (db.ofUser u).length + 1 := by
    simp [inserted_ofUser]
  have hcountDel : (inserted db now u v ua ip).Count u > 5 →
      (((inserted db now u v ua ip).Delete
        (((inserted db now u v ua ip).FindOld u).map UserFingerprint.Id)).Count u) = 5 := by
    intro hgt
    simp only [Table.Count] at hgt ⊢
    rw [hperm.length_eq, List.length_take, List.length_insertionSort]
    omega
  constructor
  · cases hF : db.First u v with
    | some e =>
      obtain ⟨hmem, hu, hv⟩ := First_some db u v e hF
      rw [RecordFingerprint_update_path db hwf now u v ua ip e hF]
      simp only [Table.Count, Table.ofUser] at h5 ⊢
      rw [← List.countP_eq_length_filter] at h5
      rw [← List.countP_eq_length_filter, List.countP_map]
      have : List.countP ((fun r => decide (r.UserId = u)) ∘ fun r =>
          if r = e then { e with UserAgent := ua, IP := ip, UpdatedAt := now } else r) db.rows
          = List.countP (fun r => decide (r.UserId = u)) db.rows := by
        apply List.countP_congr
        intro r _
        by_cases h : r = e
        · subst h; simp
        · simp [h]
      rw [this]; exact h5
    | none =>
      rw [RecordFingerprint_create_noFaults db now u v ua ip hF]
      by_cases hc : (inserted db now u v ua ip).Count u > 5
      · simp only [hc, if_true]
        rw [hcountDel hc]
      · simp only [hc, if_false]
        omega
  · intro hno hfive
    have hF := (First_none db u v).mpr hno
    have hc : (inserted db now u v ua ip).Count u > 5 := by omega
    rw [RecordFingerprint_create_noFaults db now u v ua ip hF]
    simp only [hc, if_true]
    have hrem : ∀ d ∈ (inserted db now u v ua ip).rows,
        d ∉ ((inserted db now u v ua ip).Delete
          (((inserted db now u v ua ip).FindOld u).map UserFingerprint.Id)).rows →
        d ∈ (inserted db now u v ua ip).FindOld u := by
      intro d hd hnot
      apply FindOld_of_id _ hwfi u d hd
      by_contra hcon
      apply hnot
      simp only [Table.Delete, List.mem_filter]
      exact ⟨hd, by simpa using hcon⟩
    refine ⟨?_, hcountDel hc, ?_, ?_⟩
    · exact List.filter_sublist _
    · have hdel := hcountDel hc
      have hins6 : (inserted db now u v ua ip).Count u = 6 := by omega
      simp only [Table.Count, Table.ofUser, ← List.countP_eq_length_filter] at hdel hins6
      have e1 := List.length_eq_countP_add_countP (fun r : UserFingerprint => decide (r.UserId = u))
        ((inserted db now u v ua ip).Delete
          (((inserted db now u v ua ip).FindOld u).map UserFingerprint.Id)).rows
      have e2 := List.length_eq_countP_add_countP (fun r : UserFingerprint => decide (r.UserId = u))
        (inserted db now u v ua ip).rows
      have e3 : List.countP (fun a : UserFingerprint => decide ¬(decide (a.UserId = u) = true))
          ((inserted db now u v ua ip).Delete
            (((inserted db now u v ua ip).FindOld u).map UserFingerprint.Id)).rows =
          List.countP (fun a : UserFingerprint => decide ¬(decide (a.UserId = u) = true))
            (inserted db now u v ua ip).rows := by
        simp only [Table.Delete, List.countP_filter]
        apply List.countP_congr
        intro r hr
        simp only [Bool.and_eq_true, decide_eq_true_eq, and_iff_left_iff_imp]
        intro hne hin
        exact hne (by simpa using (FindOld_mem _ u r (FindOld_of_id _ hwfi u r hr hin)).2)
      have e4 : (inserted db now u v ua ip).rows.length = db.rows.length + 1 := by
        simp [inserted]
      omega
    · intro d hd hnot
      have hold := hrem d hd hnot
      refine ⟨(FindOld_mem _ u d hold).2, ?_⟩
      intro k hk hku
      have hk1 : k ∈ ((inserted db now u v ua ip).Delete
          (((inserted db now u v ua ip).FindOld u).map UserFingerprint.Id)).ofUser u := by
        simp only [Table.ofUser, List.mem_filter]
        exact ⟨hk, by simpa using hku⟩
      exact sorted_take_drop _ u k d (hperm.mem_iff.mp hk1) hold

/-- Witness of C4: user 7, who has five rows, records the new visitor id "f";
the row updated longest ago (id 6) is the one pruned. -/
theorem RecordFingerprint_keeps_five_witness :
    sampleTable.WF ∧ sampleTable.Count 7 ≤ 5 ∧
    (∀ r ∈ sampleTable.rows, ¬ (r.UserId = 7 ∧ r.VisitorId = "f")) ∧ sampleTable.Count 7 = 5 ∧
    (RecordFingerprint sampleTable noFaults 20 7 "f" "ua2" "ip2").1.Count 7 ≤ 5 ∧
    (RecordFingerprint sampleTable noFaults 20 7 "f" "ua2" "ip2").1.rows.length =
      sampleTable.rows.length ∧
    (RecordFingerprint sampleTable noFaults 20 7 "f" "ua2" "ip2").1.rows.map UserFingerprint.Id =
      [1, 2, 3, 4, 5, 7] :=
  ⟨sampleTable_WF, by decide, by unfold sampleTable; decide, by decide,
   (RecordFingerprint_keeps_five sampleTable sampleTable_WF 20 7 "f" "ua2" "ip2" (by decide)).1,
   ((RecordFingerprint_keeps_five sampleTable sampleTable_WF 20 7 "f" "ua2" "ip2" (by decide)).2
      (by unfold sampleTable; decide) (by decide)).2.2.1,
   by decide⟩

/-- C9: when the call returns nil on a table where user `u` had no row with
visitor id `v` and every row of `u` was updated strictly before `now`, the table
holds the created row for `(u, v)` with the given user agent and IP, and every
row of another user is still there, whichever of the later database calls fail. -/
theorem RecordFingerprint_keeps_new (db : Table) (hwf : db.WF) (f : Faults) (now u : Int)
    (v ua ip : String) (hno : ∀ r ∈ db.rows, ¬ (r.UserId = u ∧ r.VisitorId = v))
    (hlate : ∀ r ∈ db.rows, r.UserId = u → r.UpdatedAt < now)
    (hnil : (RecordFingerprint db f now u v ua ip).2 = none) :
    createdRow db now u v ua ip ∈ (RecordFingerprint db f now u v ua ip).1.rows ∧
    (∃ r ∈ (RecordFingerprint db f now u v ua ip).1.rows,
      r.UserId = u ∧ r.VisitorId = v ∧ r.UserAgent = ua ∧ r.IP = ip) ∧
    (∀ r ∈ db.rows, r.UserId ≠ u → r ∈ (RecordFingerprint db f now u v ua ip).1.rows) := by
  have hF := (First_none db u v).mpr hno
  have hcreate : f.create = false := by
    by_contra hc
    have hc1 : f.create = true := by simpa using hc
    have h0 : (if f.first = true then none else db.First u v) = none := by
      split_ifs <;> simp [hF]
    have : (RecordFingerprint db f now u v ua ip).2 = some "create failed" := by
      simp only [RecordFingerprint]
      rw [h0]
      simp [hc1]
    rw [this] at hnil
    simp at hnil
  have hwfi := inserted_WF db hwf now u v ua ip
  have hnewmem : createdRow db now u v ua ip ∈ (inserted db now u v ua ip).rows := by
    simp [inserted]
  have hnew_not_old : createdRow db now u v ua ip ∉ (inserted db now u v ua ip).FindOld u := by
    intro hold
    have hpos : 0 < (((inserted db now u v ua ip).ofUser u).insertionSort updatedDesc).length := by
      have := List.length_pos_of_mem (List.mem_of_mem_drop hold)
      exact this
    obtain ⟨a, ha⟩ : ∃ a, a ∈
        (((inserted db now u v ua ip).ofUser u).insertionSort updatedDesc).take 5 := by
      apply List.exists_mem_of_length_pos
      rw [List.length_take]
      omega
    have hle := sorted_take_drop _ u a _ ha hold
    have haS : a ∈ ((inserted db now u v ua ip).ofUser u).insertionSort updatedDesc :=
      List.mem_of_mem_take ha
    have haL : a ∈ db.ofUser u ++ [createdRow db now u v ua ip] := by
      rw [← inserted_ofUser]; exact (List.mem_insertionSort _).mp haS
    rcases List.mem_append.mp haL with hin | hin
    · have hin1 : a ∈ db.rows ∧ a.UserId = u := by
        simpa [Table.ofUser, List.mem_filter] using hin
      have := hlate a hin1.1 hin1.2
      have hnowu : (createdRow db now u v ua ip).UpdatedAt = now := rfl
      omega
    · have haeq : a = createdRow db now u v ua ip := by simpa using hin
      have hnd := ofUser_nodup (inserted db now u v ua ip) hwfi u
      rw [← List.take_append_drop 5
        (((inserted db now u v ua ip).ofUser u).insertionSort updatedDesc),
        List.map_append, List.nodup_append] at hnd
      exact hnd.2.2 (List.mem_map_of_mem UserFingerprint.Id ha)
        (haeq ▸ List.mem_map_of_mem UserFingerprint.Id hold)
  have hkeep : ∀ r ∈ (inserted db now u v ua ip).rows,
      r ∉ (inserted db now u v ua ip).FindOld u →
      r ∈ (RecordFingerprint db f now u v ua ip).1.rows := by
    intro r hr hnot
    rcases (RecordFingerprint_create_path db f now u v ua ip hF hcreate).2 with h | h
    · rw [h]; exact hr
    · rw [h]
      simp only [Table.Delete, List.mem_filter]
      refine ⟨hr, ?_⟩
      have : r.Id ∉ ((inserted db now u v ua ip).FindOld u).map UserFingerprint.Id :=
        fun hc => hnot (FindOld_of_id _ hwfi u r hr hc)
      simpa using this
  have hnew := hkeep _ hnewmem hnew_not_old
  refine ⟨hnew, ⟨_, hnew, rfl, rfl, rfl, rfl⟩, ?_⟩
  intro r hr hne
  apply hkeep r (by simp [inserted, hr])
  intro hold
  exact hne (FindOld_mem _ u r hold).2

/-- Witness of C9: user 7 records the new visitor id "f" at time 20 on the sample
table; the call prunes, and the row just created stays. -/
theorem RecordFingerprint_keeps_new_witness :
    sampleTable.WF ∧
    (∀ r ∈ sampleTable.rows, ¬ (r.UserId = 7 ∧ r.VisitorId = "f")) ∧
    (∀ r ∈ sampleTable.rows, r.UserId = 7 → r.UpdatedAt < 20) ∧
    (RecordFingerprint sampleTable noFaults 20 7 "f" "ua2" "ip2").2 = none ∧
    createdRow sampleTable 20 7 "f" "ua2" "ip2" ∈
      (RecordFingerprint sampleTable noFaults 20 7 "f" "ua2" "ip2").1.rows :=
  ⟨sampleTable_WF, by unfold sampleTable; decide, by unfold sampleTable; decide, by decide,
   (RecordFingerprint_keeps_new sampleTable sampleTable_WF noFaults 20 7 "f" "ua2" "ip2"
      (by unfold sampleTable; decide) (by unfold sampleTable; decide) (by decide)).1⟩

/-! ## Properties of the ranking engine -/

theorem CountInWindow_eq (t : ActivityTrack) (now W : ℚ) :
    t.CountInWindow now W = windowSum t.buckets (now - W) now := rfl

theorem windowSum_cons (b : Bucket) (bs : List Bucket) (lo hi : ℚ) :
    windowSum (b :: bs) lo hi =
      (if lo ≤ (b.ts : ℚ) ∧ (b.ts : ℚ) ≤ hi then b.count else 0) + windowSum bs lo hi := by
  unfold windowSum
  by_cases h : lo ≤ (b.ts : ℚ) ∧ (b.ts : ℚ) ≤ hi
  · simp [List.filter_cons, h]
  · rw [if_neg h]
    have : decide (lo ≤ (b.ts : ℚ) ∧ (b.ts : ℚ) ≤ hi) = false := by simpa using h
    simp only [List.filter_cons, this]
    simp

theorem windowSum_append (as bs : List Bucket) (lo hi : ℚ) :
    windowSum (as ++ bs) lo hi = windowSum as lo hi + windowSum bs lo hi := by
  simp [windowSum, List.filter_append]

theorem windowSum_increment : ∀ (bs bs1 : List Bucket) (second : Int) (lo hi : ℚ),
    incrementBucket bs second = some bs1 →
    windowSum bs1 lo hi =
      windowSum bs lo hi + (if lo ≤ (second : ℚ) ∧ (second : ℚ) ≤ hi then 1 else 0)
  | [], _, _, _, _, h => by simp [incrementBucket] at h
  | b :: bs, bs1, second, lo, hi, h => by
    unfold incrementBucket at h
    by_cases hb : b.ts = second
    · simp only [hb, if_true, Option.some.injEq] at h
      subst h
      rw [windowSum_cons, windowSum_cons]
      simp only [hb]
      split_ifs <;> omega
    · simp only [hb, if_false, Option.map_eq_some'] at h
      obtain ⟨bs2, h2, rfl⟩ := h
      rw [windowSum_cons, windowSum_cons, windowSum_increment bs bs2 second lo hi h2]
      omega

theorem windowSum_evict (bs : List Bucket) (now lo hi : ℚ)
    (hlo : now - (maxWindowSeconds : ℚ) ≤ lo) :
    windowSum (evictStale bs now) lo hi = windowSum bs lo hi := by
  induction bs with
  | nil => rfl
  | cons b bs ih =>
    unfold evictStale at ih ⊢
    by_cases hk : now - (b.ts : ℚ) ≤ (maxWindowSeconds : ℚ)
    · simp only [List.filter_cons, hk, decide_True, if_true]
      rw [windowSum_cons, windowSum_cons, ih]
    · have hd : decide (now - (b.ts : ℚ) ≤ (maxWindowSeconds : ℚ)) = false := by simpa using hk
      simp only [List.filter_cons, hd, Bool.false_eq_true, if_false]
      rw [windowSum_cons, ih]
      have : ¬ (lo ≤ (b.ts : ℚ) ∧ (b.ts : ℚ) ≤ hi) := by
        intro hc
        apply hk
        linarith [hc.1]
      simp [this]

theorem windowSum_RecordEvent (t : ActivityTrack) (now lo hi : ℚ)
    (hlo : now - (maxWindowSeconds : ℚ) ≤ lo) :
    windowSum (t.RecordEvent now).buckets lo hi =
      windowSum t.buckets lo hi +
        (if lo ≤ ((Int.floor now : Int) : ℚ) ∧ ((Int.floor now : Int) : ℚ) ≤ hi then 1 else 0) := by
  unfold ActivityTrack.RecordEvent
  cases h : incrementBucket t.buckets (Int.floor now) with
  | some bs => exact windowSum_increment _ _ _ _ _ h
  | none =>
    simp only
    rw [windowSum_append, windowSum_evict _ _ _ _ hlo, windowSum_cons]
    simp [windowSum]

theorem findTrack_userId : ∀ (ts : List ActivityTrack) (u : Int) (t : ActivityTrack),
    findTrack ts u = some t → t.userId = u
  | [], _, _, h => by simp [findTrack] at h
  | x :: xs, u, t, h => by
    unfold findTrack at h
    split_ifs at h with hx
    · simp at h; subst h; exact hx
    · exact findTrack_userId xs u t h

theorem findTrack_putTrack_same : ∀ (ts : List ActivityTrack) (t : ActivityTrack),
    findTrack (putTrack ts t) t.userId = some t
  | [], t => by simp [putTrack, findTrack]
  | x :: xs, t => by
    unfold putTrack
    split_ifs with hx
    · simp [findTrack]
    · simp [findTrack, hx, findTrack_putTrack_same xs t]

theorem findTrack_putTrack_other : ∀ (ts : List ActivityTrack) (t : ActivityTrack) (u : Int),
    t.userId ≠ u → findTrack (putTrack ts t) u = findTrack ts u
  | [], t, u, h => by simp [putTrack, findTrack, h]
  | x :: xs, t, u, h => by
    unfold putTrack
    split_ifs with hx
    · have : x.userId ≠ u := hx ▸ h
      simp [findTrack, h, this]
    · by_cases hxu : x.userId = u
      · simp [findTrack, hxu]
      · simp [findTrack, hxu, findTrack_putTrack_other xs t u h]

theorem track_userId (m : SlotManager) (u : Int) : (m.track u).userId = u := by
  unfold SlotManager.track
  cases h : findTrack m.tracks u with
  | none => rfl
  | some t => exact findTrack_userId _ _ _ h

theorem RecordEvent_userId (t : ActivityTrack) (now : ℚ) :
    (t.RecordEvent now).userId = t.userId := by
  unfold ActivityTrack.RecordEvent
  cases incrementBucket t.buckets (Int.floor now) <;> rfl

theorem track_RecordTaskStart_same (m : SlotManager) (now : ℚ) (u : Int) :
    (m.RecordTaskStart now u).track u =
      { (m.track u).RecordEvent now with
        wasAbove := decide (((m.track u).RecordEvent now).CountInWindow now m.activeWindowSeconds
          > m.highActivityThreshold) } := by
  have hu : ({ (m.track u).RecordEvent now with
        wasAbove := decide (((m.track u).RecordEvent now).CountInWindow now m.activeWindowSeconds
          > m.highActivityThreshold) } : ActivityTrack).userId = u := by
    simp [RecordEvent_userId, track_userId]
  have := findTrack_putTrack_same m.tracks { (m.track u).RecordEvent now with
        wasAbove := decide (((m.track u).RecordEvent now).CountInWindow now m.activeWindowSeconds
          > m.highActivityThreshold) }
  rw [hu] at this
  simp only [SlotManager.track, SlotManager.RecordTaskStart]
  simp only [SlotManager.track] at this
  rw [this]
  rfl

theorem track_RecordTaskStart_other (m : SlotManager) (now : ℚ) (u u1 : Int) (h : u1 ≠ u) :
    (m.RecordTaskStart now u1).track u = m.track u := by
  simp only [SlotManager.track, SlotManager.RecordTaskStart]
  rw [findTrack_putTrack_other]
  simp only [RecordEvent_userId]
  have := track_userId m u1
  simp only [SlotManager.track] at this
  rw [this]; exact h

theorem callsIn_append (as bs : List ℚ) (lo hi : ℚ) :
    callsIn (as ++ bs) lo hi = callsIn as lo hi + callsIn bs lo hi := by
  simp [callsIn, List.filter_append]

theorem callsIn_cons (c : ℚ) (cs : List ℚ) (lo hi : ℚ) :
    callsIn (c :: cs) lo hi =
      (if lo ≤ ((Int.floor c : Int) : ℚ) ∧ ((Int.floor c : Int) : ℚ) ≤ hi then 1 else 0) +
        callsIn cs lo hi := by
  unfold callsIn
  by_cases h : lo ≤ ((Int.floor c : Int) : ℚ) ∧ ((Int.floor c : Int) : ℚ) ≤ hi
  · simp [List.filter_cons, h]; omega
  · have hd : decide (lo ≤ ((Int.floor c : Int) : ℚ) ∧ ((Int.floor c : Int) : ℚ) ≤ hi) = false := by
      simpa using h
    simp only [List.filter_cons, hd, Bool.false_eq_true, if_false, if_neg h]
    omega

theorem run_cons (s : Engine) (e : Event) (es : List Event) :
    s.run (e :: es) = (s.step e).run es := rfl

theorem run_append (s : Engine) (es fs : List Event) :
    s.run (es ++ fs) = (s.run es).run fs := by
  simp [Engine.run, List.foldl_append]

/-- The buckets of user `u` hold exactly the calls logged in `calls`, each in its
whole second, for every range that starts within the retention horizon. -/
theorem count_invariant (u : Int) : ∀ (events : List Event) (s : Engine) (calls : List ℚ),
    (∀ lo hi, s.now - (maxWindowSeconds : ℚ) ≤ lo →
      windowSum (s.manager.track u).buckets lo hi = callsIn calls lo hi) →
    ∀ lo hi, (s.run events).now - (maxWindowSeconds : ℚ) ≤ lo →
      windowSum ((s.run events).manager.track u).buckets lo hi =
        callsIn (calls ++ callTimes u s.now events) lo hi
  | [], s, calls, h => by
    intro lo hi hlo
    simpa [Engine.run, callTimes] using h lo hi hlo
  | .advance d :: es, s, calls, h => by
    intro lo hi hlo
    rw [run_cons] at hlo ⊢
    have := count_invariant u es (s.step (.advance d)) calls (by
      intro lo1 hi1 h1
      apply h lo1 hi1
      simp only [Engine.step] at h1
      have hd : (0 : ℚ) ≤ (d : ℚ) := d.2
      linarith) lo hi hlo
    rw [this]
    rfl
  | .taskStart u1 :: es, s, calls, h => by
    intro lo hi hlo
    rw [run_cons] at hlo ⊢
    by_cases hu : u1 = u
    · subst hu
      have := count_invariant u1 es (s.step (.taskStart u1)) (calls ++ [s.now]) (by
        intro lo1 hi1 h1
        simp only [Engine.step] at h1 ⊢
        rw [track_RecordTaskStart_same]
        simp only
        rw [windowSum_RecordEvent _ _ _ _ h1, h lo1 hi1 h1, callsIn_append, callsIn_cons]
        simp [callsIn]) lo hi hlo
      rw [this]
      simp [callTimes, Engine.step]
    · have := count_invariant u es (s.step (.taskStart u1)) calls (by
        intro lo1 hi1 h1
        simp only [Engine.step] at h1 ⊢
        rw [track_RecordTaskStart_other _ _ _ _ hu]
        exact h lo1 hi1 h1) lo hi hlo
      rw [this]
      simp [callTimes, Engine.step, hu]

/-- C7 as stated fails: a task start of user 1 at clock reading 70.7 is counted
in the bucket of second 70; at clock reading 100.5 the window of 30 seconds is
`[70.5, 100.5]`, which holds the call but not its bucket, so the count is 0
while one call has its timestamp in the window. -/
theorem CountInWindow_exact_counterexample :
    (0 : ℚ) < 30 ∧ (30 : ℚ) ≤ 3600 ∧
    callTimes 1 0 subSecondStart = [707 / 10] ∧
    ((Engine.fresh 0 30 10).run subSecondStart).now = 201 / 2 ∧
    (((Engine.fresh 0 30 10).run subSecondStart).manager.track 1).CountInWindow
        ((Engine.fresh 0 30 10).run subSecondStart).now 30 = 0 ∧
    ((callTimes 1 0 subSecondStart).filter (fun c =>
        ((Engine.fresh 0 30 10).run subSecondStart).now - 30 ≤ c ∧
          c ≤ ((Engine.fresh 0 30 10).run subSecondStart).now)).length = 1 ∧
    (((Engine.fresh 0 30 10).run subSecondStart).manager.track 1).CountInWindow
        ((Engine.fresh 0 30 10).run subSecondStart).now 30 ≠
      ((callTimes 1 0 subSecondStart).filter (fun c =>
        ((Engine.fresh 0 30 10).run subSecondStart).now - 30 ≤ c ∧
          c ≤ ((Engine.fresh 0 30 10).run subSecondStart).now)).length := by
  refine ⟨by norm_num, by norm_num, ?_, ?_, ?_, ?_, ?_⟩ <;> decide!

/-- C7 amended: after any sequence of events on a fresh engine, the count of user
`u` in the window `[now - W, now]`, for `W` up to 3600 and so for every `W` in
`(0, 3600]`, is exactly the number
of `RecordTaskStart(u)` calls whose timestamp, truncated to its whole second,
lies in `[now - W, now]`; when the timestamps of the calls are whole seconds,
this is the number of calls whose timestamp lies in `[now - W, now]`. -/
theorem CountInWindow_whole_seconds (t0 aw : ℚ) (th : Nat) (events : List Event) (u : Int)
    (W : ℚ) (hW : W ≤ 3600) :
    (((Engine.fresh t0 aw th).run events).manager.track u).CountInWindow
        ((Engine.fresh t0 aw th).run events).now W =
      ((callTimes u t0 events).filter (fun c =>
        ((Engine.fresh t0 aw th).run events).now - W ≤ ((Int.floor c : Int) : ℚ) ∧
          ((Int.floor c : Int) : ℚ) ≤ ((Engine.fresh t0 aw th).run events).now)).length ∧
    ((∀ c ∈ callTimes u t0 events, ((Int.floor c : Int) : ℚ) = c) →
      (((Engine.fresh t0 aw th).run events).manager.track u).CountInWindow
          ((Engine.fresh t0 aw th).run events).now W =
        ((callTimes u t0 events).filter (fun c =>
          ((Engine.fresh t0 aw th).run events).now - W ≤ c ∧
            c ≤ ((Engine.fresh t0 aw th).run events).now)).length) := by
  have h := count_invariant u events (Engine.fresh t0 aw th) [] (by
    intro lo hi _
    rfl) (((Engine.fresh t0 aw th).run events).now - W) ((Engine.fresh t0 aw th).run events).now
    (by
      have : ((maxWindowSeconds : Int) : ℚ) = 3600 := by norm_num [maxWindowSeconds]
      rw [this]; linarith)
  have h1 : (((Engine.fresh t0 aw th).run events).manager.track u).CountInWindow
        ((Engine.fresh t0 aw th).run events).now W =
      ((callTimes u t0 events).filter (fun c =>
        ((Engine.fresh t0 aw th).run events).now - W ≤ ((Int.floor c : Int) : ℚ) ∧
          ((Int.floor c : Int) : ℚ) ≤ ((Engine.fresh t0 aw th).run events).now)).length := by
    rw [CountInWindow_eq, h]
    rfl
  refine ⟨h1, ?_⟩
  intro hint
  rw [h1]
  congr 1
  apply List.filter_congr
  intro c hc
  rw [hint c hc]

/-- Witness of C7 amended: after task starts of user 1 at seconds 0, 10, 35, 50
and 50, the count in the last 30 seconds is 3. -/
theorem CountInWindow_whole_seconds_witness :
    (0 : ℚ) < 30 ∧ (30 : ℚ) ≤ 3600 ∧
    (∀ c ∈ callTimes 1 0 spreadStarts, ((Int.floor c : Int) : ℚ) = c) ∧
    (((Engine.fresh 0 30 10).run spreadStarts).manager.track 1).CountInWindow
        ((Engine.fresh 0 30 10).run spreadStarts).now 30 = 3 :=
  ⟨by norm_num, by norm_num, by decide!,
   ((CountInWindow_whole_seconds 0 30 10 spreadStarts 1 30 (by norm_num)).2
      (by decide!)).trans (by decide!)⟩

theorem appendedFor_RecordTaskStart_other (m : SlotManager) (now : ℚ) (u u1 : Int) (h : u1 ≠ u) :
    (m.RecordTaskStart now u1).appendedFor u = m.appendedFor u := by
  simp only [SlotManager.appendedFor, SlotManager.RecordTaskStart]
  split_ifs
  · simp [List.filter_append, h]
  · rfl

theorem appendedFor_RecordTaskStart_same (m : SlotManager) (now : ℚ) (u : Int) :
    ((m.RecordTaskStart now u).appendedFor u).length =
      (m.appendedFor u).length +
        (if (decide (((m.track u).RecordEvent now).CountInWindow now m.activeWindowSeconds
            > m.highActivityThreshold) && !(m.track u).wasAbove) = true then 1 else 0) := by
  simp only [SlotManager.appendedFor, SlotManager.RecordTaskStart]
  split_ifs <;> simp [List.filter_append]

theorem CountInWindow_wasAbove (t : ActivityTrack) (b : Bool) (now W : ℚ) :
    ({ t with wasAbove := b } : ActivityTrack).CountInWindow now W = t.CountInWindow now W := rfl

/-- Appends to the Recorder for user `u` during a run: one per upward crossing of
the evaluations, counted from the flag the track holds at the start. -/
theorem appended_crossings (u : Int) : ∀ (events : List Event) (s : Engine),
    ((s.run events).manager.appendedFor u).length =
      (s.manager.appendedFor u).length +
        crossings (s.manager.track u).wasAbove (evaluations u s events)
  | [], s => by simp [Engine.run, evaluations, crossings]
  | .advance d :: es, s => by
    rw [run_cons, appended_crossings u es (s.step (.advance d))]
    rfl
  | .taskStart u1 :: es, s => by
    rw [run_cons, appended_crossings u es (s.step (.taskStart u1))]
    by_cases hu : u1 = u
    · subst hu
      simp only [evaluations, if_true, crossings, Engine.step]
      rw [appendedFor_RecordTaskStart_same]
      simp only [track_RecordTaskStart_same, CountInWindow_wasAbove]
      omega
    · simp only [evaluations, hu, if_false, Engine.step]
      rw [appendedFor_RecordTaskStart_other _ _ _ _ hu, track_RecordTaskStart_other _ _ _ _ hu]

theorem crossings_all_above : ∀ (bs : List Bool) (prev : Bool), (∀ b ∈ bs, b = true) →
    crossings prev bs = if prev = true ∨ bs = [] then 0 else 1
  | [], prev, _ => by simp [crossings]
  | b :: bs, prev, h => by
    have hb : b = true := h b (List.mem_cons_self _ _)
    subst hb
    have ih := crossings_all_above bs true (fun c hc => h c (List.mem_cons_of_mem _ hc))
    simp only [crossings, ih]
    cases prev <;> simp

theorem evaluations_append (u : Int) : ∀ (es fs : List Event) (s : Engine),
    evaluations u s (es ++ fs) = evaluations u s es ++ evaluations u (s.run es) fs
  | [], fs, s => by simp [evaluations, Engine.run]
  | .advance d :: es, fs, s => by
    simp only [List.cons_append, evaluations, run_cons]
    exact evaluations_append u es fs _
  | .taskStart u1 :: es, fs, s => by
    have ih := evaluations_append u es fs (s.step (.taskStart u1))
    simp only [List.cons_append, evaluations, run_cons]
    split_ifs
    · exact congrArg _ ih
    · exact ih

theorem getLast_getD_cons (b d : Bool) (l : List Bool) :
    ((b :: l).getLast?).getD d = (l.getLast?).getD b := by
  cases l with
  | nil => rfl
  | cons c l =>
    rw [List.getLast?_cons_cons, List.getLast?_eq_getLast _ (List.cons_ne_nil c l)]
    rfl

theorem wasAbove_last (u : Int) : ∀ (events : List Event) (s : Engine),
    ((s.run events).manager.track u).wasAbove =
      ((evaluations u s events).getLast?).getD (s.manager.track u).wasAbove
  | [], s => by simp [Engine.run, evaluations]
  | .advance d :: es, s => by
    rw [run_cons, wasAbove_last u es (s.step (.advance d))]
    rfl
  | .taskStart u1 :: es, s => by
    rw [run_cons, wasAbove_last u es (s.step (.taskStart u1))]
    by_cases hu : u1 = u
    · subst hu
      simp only [evaluations, if_true, getLast_getD_cons]
      simp only [Engine.step, track_RecordTaskStart_same, CountInWindow_wasAbove]
    · simp only [evaluations, hu, if_false, Engine.step]
      rw [track_RecordTaskStart_other _ _ _ _ hu]

theorem windowSum_anti (bs : List Bucket) (lo lo1 hi hi1 : ℚ)
    (hb : ∀ b ∈ bs, (b.ts : ℚ) ≤ hi) (hlo : lo ≤ lo1) :
    windowSum bs lo1 hi1 ≤ windowSum bs lo hi := by
  induction bs with
  | nil => simp [windowSum]
  | cons b bs ih =>
    rw [windowSum_cons, windowSum_cons]
    have ih1 := ih (fun c hc => hb c (List.mem_cons_of_mem _ hc))
    have hbb := hb b (List.mem_cons_self _ _)
    by_cases h1 : lo1 ≤ (b.ts : ℚ) ∧ (b.ts : ℚ) ≤ hi1
    · have h2 : lo ≤ (b.ts : ℚ) ∧ (b.ts : ℚ) ≤ hi := ⟨le_trans hlo h1.1, hbb⟩
      rw [if_pos h1, if_pos h2]
      omega
    · rw [if_neg h1]
      omega

theorem incrementBucket_ts : ∀ (bs bs1 : List Bucket) (second : Int) (bound : ℚ),
    incrementBucket bs second = some bs1 → (∀ b ∈ bs, (b.ts : ℚ) ≤ bound) →
    ∀ b ∈ bs1, (b.ts : ℚ) ≤ bound
  | [], _, _, _, h, _ => by simp [incrementBucket] at h
  | c :: bs, bs1, second, bound, h, hb => by
    unfold incrementBucket at h
    by_cases hc : c.ts = second
    · simp only [hc, if_true, Option.some.injEq] at h
      subst h
      intro b hmem
      rcases List.mem_cons.mp hmem with hbq | hbq
      · subst hbq
        have := hb c (List.mem_cons_self _ _)
        simpa [hc] using this
      · exact hb b (List.mem_cons_of_mem _ hbq)
    · simp only [hc, if_false, Option.map_eq_some'] at h
      obtain ⟨bs2, h2, rfl⟩ := h
      intro b hmem
      rcases List.mem_cons.mp hmem with hbq | hbq
      · subst hbq
        exact hb b (List.mem_cons_self _ _)
      · exact incrementBucket_ts bs bs2 second bound h2
          (fun x hx => hb x (List.mem_cons_of_mem _ hx)) b hbq

theorem RecordEvent_ts (t : ActivityTrack) (now : ℚ)
    (hb : ∀ b ∈ t.buckets, (b.ts : ℚ) ≤ now) :
    ∀ b ∈ (t.RecordEvent now).buckets, (b.ts : ℚ) ≤ now := by
  unfold ActivityTrack.RecordEvent
  cases h : incrementBucket t.buckets (Int.floor now) with
  | some bs => exact incrementBucket_ts _ _ _ _ h hb
  | none =>
    intro b hmem
    simp only [List.mem_append, List.mem_singleton] at hmem
    rcases hmem with hmem | hmem
    · exact hb b (List.mem_of_mem_filter hmem)
    · subst hmem
      exact Int.floor_le now

/-- A task start that makes the Recorder append is an upward crossing of the
windowed count: appends for user `u` never outnumber the crossings. -/
theorem appended_le_countCrossings (u : Int) : ∀ (events : List Event) (s : Engine),
    (∀ b ∈ (s.manager.track u).buckets, (b.ts : ℚ) ≤ s.now) →
    ((s.manager.track u).wasAbove = false →
      (s.manager.track u).CountInWindow s.now s.manager.activeWindowSeconds
        ≤ s.manager.highActivityThreshold) →
    ((s.run events).manager.appendedFor u).length ≤
      (s.manager.appendedFor u).length + countCrossings u s events
  | [], s, _, _ => by simp [Engine.run, countCrossings]
  | .advance d :: es, s, hb, hq => by
    rw [run_cons]
    have hd : (0 : ℚ) ≤ (d : ℚ) := d.2
    have := appended_le_countCrossings u es (s.step (.advance d))
      (by
        intro b hmem
        have := hb b hmem
        simp only [Engine.step]
        linarith)
      (by
        intro hf
        have h0 := hq hf
        simp only [Engine.step]
        refine le_trans ?_ h0
        rw [CountInWindow_eq, CountInWindow_eq]
        exact windowSum_anti _ _ _ _ _ hb (by linarith))
    simpa [countCrossings, Engine.step] using this
  | .taskStart u1 :: es, s, hb, hq => by
    rw [run_cons]
    by_cases hu : u1 = u
    · subst hu
      have ih := appended_le_countCrossings u1 es (s.step (.taskStart u1))
        (by
          simp only [Engine.step, track_RecordTaskStart_same]
          exact RecordEvent_ts _ _ hb)
        (by
          intro hf
          simp only [Engine.step, track_RecordTaskStart_same, CountInWindow_wasAbove] at hf ⊢
          simpa using hf)
      have hstep := appendedFor_RecordTaskStart_same s.manager s.now u1
      simp only [countCrossings, Engine.step, true_and, track_RecordTaskStart_same,
        CountInWindow_wasAbove] at ih hstep ⊢
      by_cases hfire : (decide (((s.manager.track u1).RecordEvent s.now).CountInWindow s.now
          s.manager.activeWindowSeconds > s.manager.highActivityThreshold) &&
          !(s.manager.track u1).wasAbove) = true
      · rw [if_pos hfire] at hstep
        simp only [Bool.and_eq_true, decide_eq_true_eq, Bool.not_eq_true'] at hfire
        have hcross := hq hfire.2
        rw [if_pos ⟨hcross, hfire.1⟩]
        omega
      · rw [if_neg hfire] at hstep
        omega
    · have ih := appended_le_countCrossings u es (s.step (.taskStart u1))
        (by
          simp only [Engine.step]
          rw [track_RecordTaskStart_other _ _ _ _ hu]
          exact hb)
        (by
          simp only [Engine.step]
          rw [track_RecordTaskStart_other _ _ _ _ hu]
          exact hq)
      simp only [Engine.step] at ih
      rw [appendedFor_RecordTaskStart_other _ _ _ _ hu] at ih
      simpa [countCrossings, Engine.step, hu] using ih

/-- C8 as stated fails (threshold 10, window 30): after eleven task starts of
user 42 at second 0 and ten more at second 25, the count at second 31 is 10, at
or below the threshold, and a task start at second 31 takes it to 11, strictly
above; the Recorder gets no append for this upward crossing, because the
evaluation before it, at second 25, was above: two crossings, one append. -/
theorem RecordTaskStart_crossing_counterexample :
    ((Engine.fresh 0 30 10).run (twoBursts ++ [.advance 6])).now = 31 ∧
    (((Engine.fresh 0 30 10).run (twoBursts ++ [.advance 6])).manager.track 42).CountInWindow
      31 30 = 10 ∧
    (((Engine.fresh 0 30 10).run (twoBursts ++ afterDecay)).manager.track 42).CountInWindow
      31 30 = 11 ∧
    (((Engine.fresh 0 30 10).run twoBursts).manager.appendedFor 42).length = 1 ∧
    (((Engine.fresh 0 30 10).run (twoBursts ++ afterDecay)).manager.appendedFor 42).length = 1 ∧
    countCrossings 42 (Engine.fresh 0 30 10) (twoBursts ++ afterDecay) = 2 ∧
    (((Engine.fresh 0 30 10).run (twoBursts ++ afterDecay)).manager.appendedFor 42).length ≠
      countCrossings 42 (Engine.fresh 0 30 10) (twoBursts ++ afterDecay) := by
  refine ⟨?_, ?_, ?_, ?_, ?_, ?_, ?_⟩ <;> decide!

/-- C8 amended: on a fresh engine the Recorder appends for user `u` are exactly
the upward flips between consecutive threshold evaluations of the user (an
evaluation strictly above the threshold whose previous evaluation was at or
below it, or which is the first); a burst of events during which every
evaluation of `u` is above the threshold adds one append if the previous
evaluation was at or below it or there was none, and no append otherwise; the
flag of the track is the outcome of the previous evaluation; and the appends
never outnumber the upward crossings of the windowed count. -/
theorem RecordTaskStart_once_per_crossing (t0 aw : ℚ) (th : Nat) (u : Int)
    (before burst : List Event)
    (habove : ∀ b ∈ evaluations u ((Engine.fresh t0 aw th).run before) burst, b = true) :
    (((Engine.fresh t0 aw th).run (before ++ burst)).manager.appendedFor u).length =
      crossings false (evaluations u (Engine.fresh t0 aw th) (before ++ burst)) ∧
    (((Engine.fresh t0 aw th).run (before ++ burst)).manager.appendedFor u).length =
      (((Engine.fresh t0 aw th).run before).manager.appendedFor u).length +
        (if (((Engine.fresh t0 aw th).run before).manager.track u).wasAbove = true ∨
            evaluations u ((Engine.fresh t0 aw th).run before) burst = [] then 0 else 1) ∧
    (((Engine.fresh t0 aw th).run before).manager.track u).wasAbove =
      ((evaluations u (Engine.fresh t0 aw th) before).getLast?).getD false ∧
    (((Engine.fresh t0 aw th).run (before ++ burst)).manager.appendedFor u).length ≤
      countCrossings u (Engine.fresh t0 aw th) (before ++ burst) := by
  refine ⟨?_, ?_, ?_, ?_⟩
  · rw [appended_crossings u (before ++ burst) (Engine.fresh t0 aw th)]
    simp [Engine.fresh, SlotManager.appendedFor, SlotManager.track, findTrack]
  · rw [run_append, appended_crossings u burst, crossings_all_above _ _ habove]
  · rw [wasAbove_last u before (Engine.fresh t0 aw th)]
    rfl
  · have h := appended_le_countCrossings u (before ++ burst) (Engine.fresh t0 aw th)
      (by simp [Engine.fresh, SlotManager.track, findTrack])
      (by
        intro _
        simp [Engine.fresh, SlotManager.track, findTrack, ActivityTrack.CountInWindow])
    simpa [Engine.fresh, SlotManager.appendedFor] using h

/-- Witness of C8 amended (threshold 10, window 30): ten task starts of user 42
stay at or below the threshold; the eleventh and one more two seconds later are
both above it, and together they add exactly one append. -/
theorem RecordTaskStart_once_per_crossing_witness :
    (∀ b ∈ evaluations 42 ((Engine.fresh 0 30 10).run tenStarts) twoMore, b = true) ∧
    evaluations 42 ((Engine.fresh 0 30 10).run tenStarts) twoMore = [true, true] ∧
    (((Engine.fresh 0 30 10).run tenStarts).manager.appendedFor 42).length = 0 ∧
    (((Engine.fresh 0 30 10).run (tenStarts ++ twoMore)).manager.appendedFor 42).length = 1 :=
  ⟨by decide!, by decide!, by decide!,
   (RecordTaskStart_once_per_crossing 0 30 10 42 tenStarts twoMore (by decide!)).2.1.trans
     (by decide!)⟩

theorem rank_take_sublist {α : Type} (A : Int) (engine : Int → List α) (w n : Int) :
    ∃ ws, (GetActiveTaskRankAPI A engine w n).rank.Sublist (engine ws) := by
  simp only [GetActiveTaskRankAPI]
  split_ifs <;>
    first
    | exact ⟨_, List.take_sublist _ _⟩
    | exact ⟨_, List.Sublist.refl _⟩

/-- C6: the ranking has no zero-count entry, is ordered by count descending with
equal counts by userId ascending, and is a rearrangement of the non-zero counts
of the tracks; the same holds of the `rank` list `GetActiveTaskRankAPI` answers
with; users with 5, 5 and 3 events in the last 30 seconds rank as
`[{1,5},{2,5},{3,3}]`. -/
theorem GetActiveTaskRank_sorted (m : SlotManager) (now W : ℚ) :
    (∀ e ∈ m.GetActiveTaskRank now W, e.count ≠ 0) ∧
    (m.GetActiveTaskRank now W).Pairwise
      (fun a b => a.count > b.count ∨ (a.count = b.count ∧ a.userId ≤ b.userId)) ∧
    List.Perm (m.GetActiveTaskRank now W)
      ((m.tracks.map (fun t =>
        ({ userId := t.userId, count := t.CountInWindow now W, windowSeconds := W } : RankEntry))).filter
        (fun e => e.count ≠ 0)) ∧
    (∀ A w n : Int,
      (∀ e ∈ (GetActiveTaskRankAPI A (fun ws => m.GetActiveTaskRank now (ws : ℚ)) w n).rank,
        e.count ≠ 0) ∧
      (GetActiveTaskRankAPI A (fun ws => m.GetActiveTaskRank now (ws : ℚ)) w n).rank.Pairwise
        (fun a b => a.count > b.count ∨ (a.count = b.count ∧ a.userId ≤ b.userId))) ∧
    rankSample.manager.GetActiveTaskRank rankSample.now 30 = [⟨1, 5, 30⟩, ⟨2, 5, 30⟩, ⟨3, 3, 30⟩] := by
  have hzero : ∀ (W1 : ℚ), ∀ e ∈ m.GetActiveTaskRank now W1, e.count ≠ 0 := by
    intro W1 e he
    unfold SlotManager.GetActiveTaskRank at he
    rw [List.mem_insertionSort] at he
    have := (List.mem_filter.mp he).2
    simpa using this
  have hsorted : ∀ (W1 : ℚ), (m.GetActiveTaskRank now W1).Pairwise
      (fun a b => a.count > b.count ∨ (a.count = b.count ∧ a.userId ≤ b.userId)) :=
    fun W1 => List.sorted_insertionSort rankBefore _
  refine ⟨hzero W, hsorted W, ?_, ?_, ?_⟩
  · exact List.perm_insertionSort rankBefore _
  · intro A w n
    obtain ⟨ws, hsub⟩ := rank_take_sublist A (fun ws => m.GetActiveTaskRank now (ws : ℚ)) w n
    exact ⟨fun e he => hzero _ e (hsub.subset he), (hsorted _).sublist hsub⟩
  · decide!

end NewApi
